import Mathlib

/-!
A shallow embedding of the object-stack allocator in `obstack.c` (the GNU
obstack, version-2 interface on an LP64 host), together with theorems
checking the specification's claims against it.

Modelling conventions:
* Addresses and sizes are `Nat`.  `size_t` arithmetic that can wrap is
  modelled with an explicit `% W` where `W = 2 ^ 64`; address arithmetic
  that cannot realistically wrap is plain `Nat`.
* A chunk header (`struct _obstack_chunk`: a `char *limit`, a `prev`
  pointer, then `contents`) occupies `hdrSize = 16` bytes on LP64, so the
  contents of a chunk at address `a` begin at `a + hdrSize`.
* The singly linked chunk list (newest first, linked through `prev`) is a
  `List Chunk`; the head is the current chunk and the tail follows the
  `prev` links.
* Program memory is a single byte map `mem : Nat → Nat` carried in the
  control block; the code's `memcpy` calls become functional updates.
* The backing allocator (`call_chunkfun`) is an oracle
  `alloc : Nat → Option Nat` giving the address for a requested size, or
  `none` for a NULL return.  Calls to the backing free function
  (`call_freefun`) are recorded as the list of chunk addresses passed to
  it.  Invoking `obstack_alloc_failed_handler` is recorded as a `failed`
  flag together with the control-block state at the moment of invocation
  (the handler does not return).
-/

/-- Wrap-around modulus of `size_t` on the modelled (64-bit) host. -/
def W : Nat := 2 ^ 64

/-- A generous bound on sane addresses and sizes, used as a hypothesis so
that the `size_t` sums in `_obstack_newchunk` provably do not wrap. -/
def CAP : Nat := 2 ^ 60

/-- Offset of the `contents` member inside `struct _obstack_chunk` on
LP64: the `limit` and `prev` pointers take 8 bytes each. -/
def hdrSize : Nat := 16

/-- The `__BPTR_ALIGN (B, P, A)` from obstack.c: round `p` up, relative to
`b`, to the next multiple of `a + 1`.  The C source computes
`(B) + (((P) - (B) + (A)) & ~(A))` with `a + 1` a power of two; for a
power of two `a + 1` the bit-mask form equals the division form used
here. -/
def bptrAlign (b p a : Nat) : Nat := b + ((p - b + a) / (a + 1)) * (a + 1)

/-- The `__PTR_ALIGN (B, P, A)` on a host where `ptrdiff_t` is as wide as a
pointer: alignment is computed relative to the null pointer. -/
def ptrAlign (p a : Nat) : Nat := bptrAlign 0 p a

/-- One backing chunk (`struct _obstack_chunk`): its own address and its
`limit` field (one past the usable end).  The `prev` link is represented
by the position in the chunk list. -/
structure Chunk where
  addr : Nat
  limit : Nat
deriving DecidableEq, Repr

/-- The `struct obstack` control block.  The `temp` scratch union, the
allocator-shape discriminator and the function pointers themselves are
not represented: the allocator and free function are passed as oracles
to the operations that use them. -/
structure Obstack where
  chunk_size : Nat
  chunks : List Chunk
  object_base : Nat
  next_free : Nat
  chunk_limit : Nat
  alignment_mask : Nat
  maybe_empty_object : Bool
  mem : Nat → Nat

/-- Address of the current chunk (`h->chunk`); 0 models a null pointer
when the chunk list is empty. -/
def headAddr (h : Obstack) : Nat :=
  match h.chunks with
  | c :: _ => c.addr
  | [] => 0

/-- Result of an operation that may call the backing allocator, call the
backing free function, or invoke the allocation-failure handler.
`h` is the control block on return (or at the moment the handler was
invoked), `allocCalls` the sizes passed to the backing allocator and
`freed` the chunk addresses passed to the backing free function. -/
structure OpResult where
  h : Obstack
  failed : Bool
  allocCalls : List Nat
  freed : List Nat

/-- Result of `_obstack_free` / `obstack_free`: `aborted` records a call
to `abort ()`. -/
structure FreeResult where
  h : Obstack
  aborted : Bool
  freed : List Nat

/-- Functional update for `memcpy (a, src, n)` where the source bytes are
given as a list. -/
def storeBytes (m : Nat → Nat) (a : Nat) (bs : List Nat) : Nat → Nat :=
  fun x => if a ≤ x ∧ x < a + bs.length then bs.getD (x - a) 0 else m x

/-- Functional update for `memcpy (dst, src, n)` where both ranges are in
the modelled memory. -/
def copyBytes (m : Nat → Nat) (src dst n : Nat) : Nat → Nat :=
  fun x => if dst ≤ x ∧ x < dst + n then m (src + (x - dst)) else m x

/-- Append `bs` at `next_free` and advance it (the tail of the growth
macros after the room check). -/
def growWrite (h : Obstack) (bs : List Nat) : Obstack :=
  { h with mem := storeBytes h.mem h.next_free bs,
           next_free := h.next_free + bs.length }

/-- The `sum1 = obj_size + length` in `_obstack_newchunk` (a `size_t` sum). -/
def nc_sum1 (h : Obstack) (length : Nat) : Nat :=
  ((h.next_free - h.object_base) + length) % W

/-- The `sum2 = sum1 + h->alignment_mask` in `_obstack_newchunk`. -/
def nc_sum2 (h : Obstack) (length : Nat) : Nat :=
  (nc_sum1 h length + h.alignment_mask) % W

/-- The `new_size = sum2 + (obj_size >> 3) + 100` in `_obstack_newchunk`,
before the two clamps. -/
def nc_size0 (h : Obstack) (length : Nat) : Nat :=
  (nc_sum2 h length + (h.next_free - h.object_base) / 8 + 100) % W

/-- The chunk size `_obstack_newchunk` finally requests: `nc_size0`
clamped down to `sum2` if the last addition wrapped, then clamped up to
the preferred `chunk_size`. -/
def newchunkSize (h : Obstack) (length : Nat) : Nat :=
  let s := if nc_size0 h length < nc_sum2 h length then nc_sum2 h length
           else nc_size0 h length
  if s < h.chunk_size then h.chunk_size else s

/-- The overflow guard `obj_size <= sum1 && sum1 <= sum2` of
`_obstack_newchunk`; the allocator is only called when it holds. -/
def nc_guard (h : Obstack) (length : Nat) : Prop :=
  (h.next_free - h.object_base) ≤ nc_sum1 h length ∧
    nc_sum1 h length ≤ nc_sum2 h length

instance (h : Obstack) (length : Nat) : Decidable (nc_guard h length) :=
  instDecidableAnd

/-- The recycling condition of `_obstack_newchunk`:
`!h->maybe_empty_object && h->object_base == __PTR_ALIGN (old, old->contents, mask)`. -/
def nc_recycle (h : Obstack) (old : Chunk) : Prop :=
  h.maybe_empty_object = false ∧
    h.object_base = ptrAlign (old.addr + hdrSize) h.alignment_mask

instance (h : Obstack) (old : Chunk) : Decidable (nc_recycle h old) :=
  instDecidableAnd

/-- The `_obstack_newchunk (h, length)`: allocate a larger chunk, copy the
growing object into it, and free the old chunk when it held nothing
else.  On allocator failure (or when the overflow guard fails, so the
allocator is never called) the failure handler is invoked with the
control block untouched. -/
def _obstack_newchunk (h : Obstack) (length : Nat)
    (alloc : Nat → Option Nat) : OpResult :=
  match (if nc_guard h length then alloc (newchunkSize h length) else none) with
  | none =>
      { h := h, failed := true,
        allocCalls := if nc_guard h length then [newchunkSize h length] else [],
        freed := [] }
  | some a =>
      let obj_size := h.next_free - h.object_base
      let ob := ptrAlign (a + hdrSize) h.alignment_mask
      let m2 := copyBytes h.mem h.object_base ob obj_size
      let base : Obstack :=
        { h with chunk_limit := a + newchunkSize h length, object_base := ob,
                 next_free := ob + obj_size, maybe_empty_object := false,
                 mem := m2 }
      match h.chunks with
      | old :: rest =>
          if nc_recycle h old then
            { h := { base with chunks := ⟨a, a + newchunkSize h length⟩ :: rest },
              failed := false, allocCalls := [newchunkSize h length],
              freed := [old.addr] }
          else
            { h := { base with chunks := ⟨a, a + newchunkSize h length⟩ :: old :: rest },
              failed := false, allocCalls := [newchunkSize h length], freed := [] }
      | [] =>
          { h := { base with chunks := [⟨a, a + newchunkSize h length⟩] },
            failed := false, allocCalls := [newchunkSize h length], freed := [] }

/-- The `obstack_make_room (h, length)`. -/
def obstack_make_room (h : Obstack) (length : Nat)
    (alloc : Nat → Option Nat) : OpResult :=
  if h.chunk_limit - h.next_free < length then _obstack_newchunk h length alloc
  else { h := h, failed := false, allocCalls := [], freed := [] }

/-- The `obstack_blank (h, length)`: room check, then `next_free += length`
(no bytes are written). -/
def obstack_blank (h : Obstack) (length : Nat)
    (alloc : Nat → Option Nat) : OpResult :=
  if h.chunk_limit - h.next_free < length then
    let r := _obstack_newchunk h length alloc
    if r.failed then r
    else { r with h := { r.h with next_free := r.h.next_free + length } }
  else { h := { h with next_free := h.next_free + length },
         failed := false, allocCalls := [], freed := [] }

/-- The `obstack_grow (h, where, length)` with the source bytes given as a
list (`length = src.length`). -/
def obstack_grow (h : Obstack) (src : List Nat)
    (alloc : Nat → Option Nat) : OpResult :=
  if h.chunk_limit - h.next_free < src.length then
    let r := _obstack_newchunk h src.length alloc
    if r.failed then r else { r with h := growWrite r.h src }
  else { h := growWrite h src, failed := false, allocCalls := [], freed := [] }

/-- The `obstack_grow0 (h, where, length)`: like `obstack_grow` but with a
trailing zero byte, checking room for `length + 1`. -/
def obstack_grow0 (h : Obstack) (src : List Nat)
    (alloc : Nat → Option Nat) : OpResult :=
  if h.chunk_limit - h.next_free < src.length + 1 then
    let r := _obstack_newchunk h (src.length + 1) alloc
    if r.failed then r else { r with h := growWrite r.h (src ++ [0]) }
  else { h := growWrite h (src ++ [0]),
         failed := false, allocCalls := [], freed := [] }

/-- The `obstack_1grow (h, datum)`. -/
def obstack_1grow (h : Obstack) (b : Nat)
    (alloc : Nat → Option Nat) : OpResult :=
  if h.chunk_limit - h.next_free < 1 then
    let r := _obstack_newchunk h 1 alloc
    if r.failed then r else { r with h := growWrite r.h [b] }
  else { h := growWrite h [b], failed := false, allocCalls := [], freed := [] }

/-- Little-endian byte image of a `k`-byte scalar value. -/
def natLE (k v : Nat) : List Nat := (List.range k).map (fun i => v / 256 ^ i % 256)

/-- The `obstack_ptr_grow (h, datum)`: appends a pointer-sized (8-byte)
value. -/
def obstack_ptr_grow (h : Obstack) (v : Nat)
    (alloc : Nat → Option Nat) : OpResult :=
  if h.chunk_limit - h.next_free < 8 then
    let r := _obstack_newchunk h 8 alloc
    if r.failed then r else { r with h := growWrite r.h (natLE 8 v) }
  else { h := growWrite h (natLE 8 v),
         failed := false, allocCalls := [], freed := [] }

/-- The `obstack_int_grow (h, datum)`: appends an int-sized (4-byte)
value. -/
def obstack_int_grow (h : Obstack) (v : Nat)
    (alloc : Nat → Option Nat) : OpResult :=
  if h.chunk_limit - h.next_free < 4 then
    let r := _obstack_newchunk h 4 alloc
    if r.failed then r else { r with h := growWrite r.h (natLE 4 v) }
  else { h := growWrite h (natLE 4 v),
         failed := false, allocCalls := [], freed := [] }

/-- The `obstack_finish (h)`: freeze the growing object, pad `next_free` up
to the alignment (clamped at `chunk_limit`) and return the frozen
object's address. -/
def obstack_finish (h : Obstack) : Obstack × Nat :=
  let value := h.object_base
  let memo := if h.next_free == value then true else h.maybe_empty_object
  let nf1 := ptrAlign h.next_free h.alignment_mask
  let nf2 := if h.chunk_limit - headAddr h < nf1 - headAddr h then h.chunk_limit
             else nf1
  ({ h with next_free := nf2, object_base := nf2, maybe_empty_object := memo },
   value)

/-- The chunk walk of `_obstack_free`: while the chunk does not contain
`obj` (`lp >= obj || lp->limit < obj`), pass it to the backing free
function and follow `prev`.  Returns the freed addresses and the
remaining list. -/
def freeLoop (obj : Nat) : List Chunk → List Nat × List Chunk
  | [] => ([], [])
  | c :: rest =>
      if obj ≤ c.addr ∨ c.limit < obj then
        (c.addr :: (freeLoop obj rest).1, (freeLoop obj rest).2)
      else ([], c :: rest)

/-- The `_obstack_free (h, obj)`: walk the chunk list freeing newer chunks;
rewind the cursor into the containing chunk, or `abort ()` when a
non-null `obj` is in no chunk.  The `maybe_empty_object` flag is set
whenever the walk freed at least one chunk. -/
def _obstack_free (h : Obstack) (obj : Nat) : FreeResult :=
  match (freeLoop obj h.chunks).2 with
  | lp :: t =>
      { aborted := false, freed := (freeLoop obj h.chunks).1,
        h := { h with object_base := obj, next_free := obj,
                      chunk_limit := lp.limit, chunks := lp :: t,
                      maybe_empty_object :=
                        h.maybe_empty_object || !(freeLoop obj h.chunks).1.isEmpty } }
  | [] =>
      { aborted := obj != 0, freed := (freeLoop obj h.chunks).1,
        h := { h with chunks := [],
                      maybe_empty_object :=
                        h.maybe_empty_object || !(freeLoop obj h.chunks).1.isEmpty } }

/-- The public `obstack_free` macro: when `obj` is strictly inside the
current chunk (`obj > chunk && obj < chunk_limit`) just rewind the
cursor, otherwise call `_obstack_free`. -/
def obstack_free (h : Obstack) (obj : Nat) : FreeResult :=
  if headAddr h < obj ∧ obj < h.chunk_limit then
    { aborted := false, freed := [],
      h := { h with object_base := obj, next_free := obj } }
  else _obstack_free h obj

/-- The chunk walk of `_obstack_allocated_p`, with the same containment
rule as `_obstack_free`. -/
def allocLoop (obj : Nat) : List Chunk → Bool
  | [] => false
  | c :: rest => if obj ≤ c.addr ∨ c.limit < obj then allocLoop obj rest else true

/-- The `_obstack_allocated_p (h, obj)`. -/
def _obstack_allocated_p (h : Obstack) (obj : Nat) : Bool :=
  allocLoop obj h.chunks

/-- The `DEFAULT_ALIGNMENT` on the modelled LP64 host: the largest alignment
among `long double`, `uintmax_t` and `void *`. -/
def DEFAULT_ALIGNMENT : Nat := 16

/-- The default chunk size chosen by `_obstack_begin_worker` for
`size == 0`: 4096 minus the computed malloc overhead (32 on this
host). -/
def defaultChunkSize : Nat := 4096 - 32

/-- The `_obstack_begin` / `_obstack_begin_1` via `_obstack_begin_worker`:
allocate the first chunk and point the cursor at its aligned start.
Returns `none` when the backing allocator fails (the failure handler is
invoked). -/
def _obstack_begin (size alignment : Nat) (m0 : Nat → Nat)
    (alloc : Nat → Option Nat) : Option Obstack :=
  let al := if alignment = 0 then DEFAULT_ALIGNMENT else alignment
  let sz := if size = 0 then defaultChunkSize else size
  match alloc sz with
  | none => none
  | some a =>
      let ob := ptrAlign (a + hdrSize) (al - 1)
      some { chunk_size := sz, chunks := [⟨a, a + sz⟩], object_base := ob,
             next_free := ob, chunk_limit := a + sz, alignment_mask := al - 1,
             maybe_empty_object := false, mem := m0 }

/-- The 1024-byte scratch buffer of `obstack_printf` / `obstack_vprintf`
after `vsnprintf (buf, sizeof buf, fmt, ap)` formatted the byte sequence
`out`: the initialized part of the buffer holds at most 1023 bytes of
output plus the NUL terminator.  (`out.length` is the length vsnprintf
reports.) -/
def vsnprintfBuf (out : List Nat) : List Nat := out.take (1024 - 1) ++ [0]

/-- The `obstack_vprintf (h, fmt, ap)` where the formatter's full output is
the byte list `out`: format into the 1024-byte scratch buffer, then
`obstack_grow (h, buf, len)` with `len` the formatter-reported length,
and return `len`.  When `len` exceeds the bytes available in the buffer
the `memcpy` inside `obstack_grow` reads out of bounds: `none`. -/
def obstack_vprintf (h : Obstack) (out : List Nat)
    (alloc : Nat → Option Nat) : Option (OpResult × Nat) :=
  let len := out.length
  let buf := vsnprintfBuf out
  if len ≤ buf.length then some (obstack_grow h (buf.take len) alloc, len)
  else none

/-- The `obstack_printf` has the same body as `obstack_vprintf` after
`va_start`. -/
def obstack_printf (h : Obstack) (out : List Nat)
    (alloc : Nat → Option Nat) : Option (OpResult × Nat) :=
  obstack_vprintf h out alloc

/-- The containment test of the bulk-free walk, as a Bool:
`lp < obj && obj <= lp->limit` (the negation of the walk's release
condition `lp >= obj || lp->limit < obj`). -/
def containsB (c : Chunk) (p : Nat) : Bool :=
  decide (c.addr < p) && decide (p ≤ c.limit)

/-- One public operation on an obstack, for reachability statements. -/
inductive Op where
  | make_room (n : Nat)
  | blank (n : Nat)
  | grow1 (b : Nat)
  | ptr_grow (v : Nat)
  | int_grow (v : Nat)
  | grow (src : List Nat)
  | grow0 (src : List Nat)
  | finish
  | free (p : Nat)

/-- The room the operation may request from `_obstack_newchunk`. -/
def opNeed : Op → Nat
  | .make_room n => n
  | .blank n => n
  | .grow1 _ => 1
  | .ptr_grow _ => 8
  | .int_grow _ => 4
  | .grow src => src.length
  | .grow0 src => src.length + 1
  | .finish => 0
  | .free _ => 0

/-- Sanity bound on an operation's requested length (rules out `size_t`
wrap-around in the chunk-size computation). -/
def OpOK (o : Op) : Prop := opNeed o < CAP

/-- Sanity bound on a backing allocator: chunks it returns lie below
`CAP`. -/
def AllocOK (alloc : Nat → Option Nat) : Prop :=
  ∀ n a, alloc n = some a → a + n < CAP

/-- Run one public operation. -/
def runOp (h : Obstack) (o : Op) (alloc : Nat → Option Nat) : OpResult :=
  match o with
  | .make_room n => obstack_make_room h n alloc
  | .blank n => obstack_blank h n alloc
  | .grow1 b => obstack_1grow h b alloc
  | .ptr_grow v => obstack_ptr_grow h v alloc
  | .int_grow v => obstack_int_grow h v alloc
  | .grow src => obstack_grow h src alloc
  | .grow0 src => obstack_grow0 h src alloc
  | .finish => { h := (obstack_finish h).1, failed := false,
                 allocCalls := [], freed := [] }
  | .free p =>
      let r := obstack_free h p
      { h := r.h, failed := r.aborted || p == 0, allocCalls := [], freed := r.freed }

/-- One step of execution.  `none` means control never returns to the
caller in a usable state: the failure handler was invoked, `abort ()`
was called, or `free (h, NULL)` released every chunk and left the
control block uninitialized. -/
def step (h : Obstack) (o : Op) (alloc : Nat → Option Nat) : Option Obstack :=
  let r := runOp h o alloc
  if r.failed then none else some r.h

/-- Execute a sequence of public operations, each with its own backing
allocator oracle. -/
def execTrace (h : Obstack) : List (Op × (Nat → Option Nat)) → Option Obstack
  | [] => some h
  | s :: t =>
      match step h s.1 s.2 with
      | none => none
      | some h2 => execTrace h2 t

/-- Well-formedness of a resting control block: the cursor ordering, the
cursor sitting above the current chunk's address, the cached
`chunk_limit` agreeing with the current chunk, and the sanity bounds
that keep `size_t` arithmetic below `W`. -/
def WFS (h : Obstack) : Prop :=
  h.object_base ≤ h.next_free ∧
  h.next_free ≤ h.chunk_limit ∧
  headAddr h ≤ h.object_base ∧
  (∃ c rest, h.chunks = c :: rest ∧ h.chunk_limit = c.limit) ∧
  h.chunk_limit < CAP ∧
  h.alignment_mask < CAP ∧
  (∀ c ∈ h.chunks, c.limit < CAP)

/-- An all-zero initial memory for concrete examples. -/
def memZ : Nat → Nat := fun _ => 0

/-- A concrete two-chunk obstack used by witnesses: current chunk at
2000 (limit 2100, cursor at 2016), older chunk at 1000 (limit 1100). -/
def hFix : Obstack :=
  { chunk_size := 64, chunks := [⟨2000, 2100⟩, ⟨1000, 1100⟩],
    object_base := 2016, next_free := 2016, chunk_limit := 2100,
    alignment_mask := 7, maybe_empty_object := false, mem := memZ }

/-- A concrete single-chunk obstack (chunk at 100, limit 200, cursor at
150) for the containment-rule counterexample. -/
def hC5 : Obstack :=
  { chunk_size := 64, chunks := [⟨100, 200⟩],
    object_base := 150, next_free := 150, chunk_limit := 200,
    alignment_mask := 7, maybe_empty_object := false, mem := memZ }

/-- A concrete obstack about to migrate: chunk at 64 (limit 94), growing
object of 10 bytes at its aligned start 80. -/
def hC2 : Obstack :=
  { chunk_size := 60, chunks := [⟨64, 94⟩],
    object_base := 80, next_free := 90, chunk_limit := 94,
    alignment_mask := 7, maybe_empty_object := false, mem := memZ }

/-- A concrete obstack with an empty growing object (alignment 8, chunk
at 64 with limit 94), used with a huge requested length to drive the
third addition of the chunk-size computation past `W`. -/
def hC4 : Obstack :=
  { chunk_size := 30, chunks := [⟨64, 94⟩],
    object_base := 80, next_free := 80, chunk_limit := 94,
    alignment_mask := 7, maybe_empty_object := false, mem := memZ }

/-- Backing allocator for the alignment counterexample: always returns
the chunk at address 64. -/
def allocC3 : Nat → Option Nat := fun _ => some 64

/-- Bounded backing allocator for the invariant witness. -/
def allocW : Nat → Option Nat := fun n => if n ≤ 2 ^ 59 then some 1024 else none

/-- The obstack produced by `_obstack_begin 64 8` with `allocW` (chunk at
1024, limit 1088, aligned start 1040). -/
def h0ex : Obstack :=
  { chunk_size := 64, chunks := [⟨1024, 1088⟩], object_base := 1040,
    next_free := 1040, chunk_limit := 1088, alignment_mask := 7,
    maybe_empty_object := false, mem := memZ }

/-- The `h0ex` after `blank 4` followed by `finish`. -/
def hfinEx : Obstack :=
  { chunk_size := 64, chunks := [⟨1024, 1088⟩], object_base := 1048,
    next_free := 1048, chunk_limit := 1088, alignment_mask := 7,
    maybe_empty_object := false, mem := memZ }

/-- Rounding up does not go below the argument. -/
lemma ptrAlign_ge (p a : Nat) : p ≤ ptrAlign p a := by
  unfold ptrAlign bptrAlign
  simp only [Nat.sub_zero, Nat.zero_add]
  have h1 := Nat.div_add_mod (p + a) (a + 1)
  have h2 := Nat.mod_lt (p + a) (show 0 < a + 1 by omega)
  have h3 : (a + 1) * ((p + a) / (a + 1)) = ((p + a) / (a + 1)) * (a + 1) :=
    Nat.mul_comm _ _
  omega

/-- Rounding up to the next multiple of `a + 1` adds at most `a`. -/
lemma ptrAlign_le (p a : Nat) : ptrAlign p a ≤ p + a := by
  unfold ptrAlign bptrAlign
  simp only [Nat.sub_zero, Nat.zero_add]
  have h1 := Nat.div_mul_le_self (p + a) (a + 1)
  omega

/-- The rounded value is a multiple of `a + 1`. -/
lemma ptrAlign_dvd (p a : Nat) : (a + 1) ∣ ptrAlign p a := by
  unfold ptrAlign bptrAlign
  simp only [Nat.sub_zero, Nat.zero_add]
  exact dvd_mul_left (a + 1) ((p + a) / (a + 1))

/-- The walk's release condition is the negation of containment. -/
lemma containsB_false_iff (c : Chunk) (p : Nat) :
    containsB c p = false ↔ (p ≤ c.addr ∨ c.limit < p) := by
  simp [containsB]
  omega

/-- Containment in terms of the address comparisons. -/
lemma containsB_true_iff (c : Chunk) (p : Nat) :
    containsB c p = true ↔ (c.addr < p ∧ p ≤ c.limit) := by
  simp [containsB]

/-- When some chunk of the list contains `p`, the free walk releases
exactly the prefix of non-containing chunks and stops at the first
containing one. -/
lemma freeLoop_eq_split (p : Nat) :
    ∀ l : List Chunk, (∃ c ∈ l, containsB c p = true) →
      freeLoop p l = ((l.takeWhile (fun c => !containsB c p)).map Chunk.addr,
                      l.dropWhile (fun c => !containsB c p))
  | [], hex => by simp at hex
  | c :: rest, hex => by
      by_cases hc : containsB c p = true
      · have hcond : ¬(p ≤ c.addr ∨ c.limit < p) := by
          rw [containsB_true_iff] at hc
          omega
        simp [freeLoop, hcond, List.takeWhile_cons, List.dropWhile_cons, hc]
      · have hcb : containsB c p = false := by
          cases hcp : containsB c p
          · rfl
          · exact absurd hcp hc
        have hcond : (p ≤ c.addr ∨ c.limit < p) := (containsB_false_iff c p).mp hcb
        have hex2 : ∃ c2 ∈ rest, containsB c2 p = true := by
          obtain ⟨c2, hmem, hc2⟩ := hex
          rcases List.mem_cons.mp hmem with h | h
          · subst h
            exact absurd hc2 hc
          · exact ⟨c2, h, hc2⟩
        have ih := freeLoop_eq_split p rest hex2
        simp [freeLoop, hcond, List.takeWhile_cons, List.dropWhile_cons, hcb, ih]

/-- When the walk stops at a chunk, that chunk contains the pointer and
the remaining list is part of the original one. -/
lemma freeLoop_rest_spec (p : Nat) :
    ∀ (l : List Chunk) (lp : Chunk) (t : List Chunk),
      (freeLoop p l).2 = lp :: t →
      (lp.addr < p ∧ p ≤ lp.limit) ∧ (∀ x ∈ lp :: t, x ∈ l)
  | [], lp, t, hr => by simp [freeLoop] at hr
  | c :: rest, lp, t, hr => by
      by_cases hcond : (p ≤ c.addr ∨ c.limit < p)
      · simp only [freeLoop, if_pos hcond] at hr
        obtain ⟨h1, h2⟩ := freeLoop_rest_spec p rest lp t hr
        exact ⟨h1, fun x hx => List.mem_cons_of_mem c (h2 x hx)⟩
      · have hr2 : c :: rest = lp :: t := by
          simpa [freeLoop, hcond] using hr
        injection hr2 with h1 h2
        subst h1
        subst h2
        exact ⟨by omega, fun x hx => hx⟩

/-- When no chunk of the list contains the pointer, the walk releases
everything. -/
lemma freeLoop_all (p : Nat) :
    ∀ l : List Chunk, (∀ c ∈ l, p ≤ c.addr ∨ c.limit < p) →
      freeLoop p l = (l.map Chunk.addr, [])
  | [], _ => rfl
  | c :: rest, hall => by
      have hcond : p ≤ c.addr ∨ c.limit < p := hall c (List.mem_cons_self c rest)
      have ih := freeLoop_all p rest (fun x hx => hall x (List.mem_cons_of_mem c hx))
      simp [freeLoop, hcond, ih]

/-- A walk that is guaranteed a containing chunk does not run off the
list. -/
lemma dropWhile_ne_nil_of_contains (p : Nat) :
    ∀ l : List Chunk, (∃ c ∈ l, containsB c p = true) →
      l.dropWhile (fun c => !containsB c p) ≠ []
  | [], hex => by simp at hex
  | c :: rest, hex => by
      by_cases hc : containsB c p = true
      · simp [List.dropWhile_cons, hc]
      · have hcb : containsB c p = false := by
          cases hcp : containsB c p
          · rfl
          · exact absurd hcp hc
        have hex2 : ∃ c2 ∈ rest, containsB c2 p = true := by
          obtain ⟨c2, hmem, hc2⟩ := hex
          rcases List.mem_cons.mp hmem with h | h
          · subst h
            exact absurd hc2 hc
          · exact ⟨c2, h, hc2⟩
        simpa [List.dropWhile_cons, hcb] using dropWhile_ne_nil_of_contains p rest hex2

/-- Writing zero bytes leaves memory unchanged. -/
lemma storeBytes_nil (m : Nat → Nat) (a : Nat) : storeBytes m a [] = m := by
  funext x
  simp only [storeBytes, List.length_nil, Nat.add_zero]
  rw [if_neg (by omega)]

/-- The `_obstack_newchunk` when the allocator (or the guard) fails: the
handler is invoked with the control block untouched. -/
lemma newchunk_none_eq (h : Obstack) (len : Nat) (alloc : Nat → Option Nat)
    (hnone : (if nc_guard h len then alloc (newchunkSize h len) else none) = none) :
    _obstack_newchunk h len alloc =
      { h := h, failed := true,
        allocCalls := if nc_guard h len then [newchunkSize h len] else [],
        freed := [] } := by
  unfold _obstack_newchunk
  rw [hnone]

/-- The `_obstack_newchunk` on a successful allocation, with the resulting
record spelled out. -/
lemma newchunk_some_eq (h : Obstack) (len : Nat) (alloc : Nat → Option Nat)
    (a : Nat) (old : Chunk) (rest : List Chunk)
    (hg : nc_guard h len) (ha : alloc (newchunkSize h len) = some a)
    (hch : h.chunks = old :: rest) :
    _obstack_newchunk h len alloc =
      (if nc_recycle h old then
        { h := { chunk_size := h.chunk_size,
                 chunks := ⟨a, a + newchunkSize h len⟩ :: rest,
                 object_base := ptrAlign (a + hdrSize) h.alignment_mask,
                 next_free := ptrAlign (a + hdrSize) h.alignment_mask
                   + (h.next_free - h.object_base),
                 chunk_limit := a + newchunkSize h len,
                 alignment_mask := h.alignment_mask,
                 maybe_empty_object := false,
                 mem := copyBytes h.mem h.object_base
                   (ptrAlign (a + hdrSize) h.alignment_mask)
                   (h.next_free - h.object_base) },
          failed := false, allocCalls := [newchunkSize h len],
          freed := [old.addr] }
      else
        { h := { chunk_size := h.chunk_size,
                 chunks := ⟨a, a + newchunkSize h len⟩ :: old :: rest,
                 object_base := ptrAlign (a + hdrSize) h.alignment_mask,
                 next_free := ptrAlign (a + hdrSize) h.alignment_mask
                   + (h.next_free - h.object_base),
                 chunk_limit := a + newchunkSize h len,
                 alignment_mask := h.alignment_mask,
                 maybe_empty_object := false,
                 mem := copyBytes h.mem h.object_base
                   (ptrAlign (a + hdrSize) h.alignment_mask)
                   (h.next_free - h.object_base) },
          failed := false, allocCalls := [newchunkSize h len],
          freed := [] }) := by
  unfold _obstack_newchunk
  rw [if_pos hg, ha, hch]

/-- Under the sanity bounds the three `size_t` sums of the chunk-size
computation do not wrap, and the requested size covers the object, the
requested length, the mask and 100 bytes of headroom. -/
lemma newchunk_size_facts (h : Obstack) (len : Nat)
    (hobj : h.next_free - h.object_base < CAP) (hlen : len < CAP)
    (hmc : h.alignment_mask < CAP) :
    nc_sum1 h len = (h.next_free - h.object_base) + len ∧
    nc_sum2 h len = (h.next_free - h.object_base) + len + h.alignment_mask ∧
    nc_guard h len ∧
    (h.next_free - h.object_base) + len + h.alignment_mask + 100
      ≤ newchunkSize h len := by
  have hW : 4 * CAP < W := by decide
  unfold CAP at hobj hlen hmc
  have hs1 : nc_sum1 h len = (h.next_free - h.object_base) + len := by
    unfold nc_sum1
    exact Nat.mod_eq_of_lt (by unfold W; omega)
  have hs2 : nc_sum2 h len
      = (h.next_free - h.object_base) + len + h.alignment_mask := by
    unfold nc_sum2
    rw [hs1]
    exact Nat.mod_eq_of_lt (by unfold W; omega)
  have hdle : (h.next_free - h.object_base) / 8 ≤ h.next_free - h.object_base :=
    Nat.div_le_self _ _
  have hs0 : nc_size0 h len = (h.next_free - h.object_base) + len
      + h.alignment_mask + (h.next_free - h.object_base) / 8 + 100 := by
    unfold nc_size0
    rw [hs2]
    exact Nat.mod_eq_of_lt (by unfold W; omega)
  refine ⟨hs1, hs2, ⟨by omega, by omega⟩, ?_⟩
  unfold newchunkSize
  rw [hs0, hs2]
  have hnoclamp : ¬ ((h.next_free - h.object_base) + len + h.alignment_mask
      + (h.next_free - h.object_base) / 8 + 100
      < (h.next_free - h.object_base) + len + h.alignment_mask) := by omega
  simp only [if_neg hnoclamp]
  split
  · omega
  · omega

/-- Facts about a successful or failing `_obstack_newchunk` under the
sanity bounds: either the handler was invoked with the control block
untouched, or the new resting state is well-formed and has room for the
requested length. -/
lemma newchunk_preserves (h : Obstack) (len : Nat) (alloc : Nat → Option Nat)
    (hWF : WFS h) (hlen : len < CAP) (hA : AllocOK alloc) :
    ((_obstack_newchunk h len alloc).failed = true ∧
      (_obstack_newchunk h len alloc).h = h) ∨
    ((_obstack_newchunk h len alloc).failed = false ∧
      WFS (_obstack_newchunk h len alloc).h ∧
      len ≤ (_obstack_newchunk h len alloc).h.chunk_limit -
            (_obstack_newchunk h len alloc).h.next_free) := by
  obtain ⟨hbn, hnl, hab, ⟨c0, rest0, hch, hlim⟩, hlc, hmc, hallc⟩ := hWF
  have hobj : h.next_free - h.object_base < CAP := by omega
  obtain ⟨hs1, hs2, hg, hns⟩ := newchunk_size_facts h len hobj hlen hmc
  cases halloc : alloc (newchunkSize h len) with
  | none =>
      left
      rw [newchunk_none_eq h len alloc (by rw [if_pos hg]; exact halloc)]
      exact ⟨rfl, rfl⟩
  | some a =>
      right
      rw [newchunk_some_eq h len alloc a c0 rest0 hg halloc hch]
      have hacap : a + newchunkSize h len < CAP := hA _ _ halloc
      have hobge : a + hdrSize ≤ ptrAlign (a + hdrSize) h.alignment_mask :=
        ptrAlign_ge _ _
      have hoble : ptrAlign (a + hdrSize) h.alignment_mask
          ≤ a + hdrSize + h.alignment_mask := ptrAlign_le _ _
      unfold hdrSize at hobge hoble
      split
      · refine ⟨rfl, ⟨?_, ?_, ?_, ⟨⟨a, a + newchunkSize h len⟩, rest0, rfl, rfl⟩,
          ?_, ?_, ?_⟩, ?_⟩
        · exact Nat.le_add_right _ _
        · show ptrAlign (a + hdrSize) h.alignment_mask
              + (h.next_free - h.object_base) ≤ a + newchunkSize h len
          unfold hdrSize
          omega
        · show a ≤ ptrAlign (a + hdrSize) h.alignment_mask
          unfold hdrSize
          omega
        · show a + newchunkSize h len < CAP
          omega
        · show h.alignment_mask < CAP
          omega
        · intro c hc
          rcases List.mem_cons.mp hc with hh | hh
          · subst hh
            show a + newchunkSize h len < CAP
            omega
          · exact hallc c (by rw [hch]; exact List.mem_cons_of_mem _ hh)
        · show len ≤ a + newchunkSize h len
            - (ptrAlign (a + hdrSize) h.alignment_mask + (h.next_free - h.object_base))
          unfold hdrSize
          omega
      · refine ⟨rfl, ⟨?_, ?_, ?_, ⟨⟨a, a + newchunkSize h len⟩, c0 :: rest0, rfl, rfl⟩,
          ?_, ?_, ?_⟩, ?_⟩
        · exact Nat.le_add_right _ _
        · show ptrAlign (a + hdrSize) h.alignment_mask
              + (h.next_free - h.object_base) ≤ a + newchunkSize h len
          unfold hdrSize
          omega
        · show a ≤ ptrAlign (a + hdrSize) h.alignment_mask
          unfold hdrSize
          omega
        · show a + newchunkSize h len < CAP
          omega
        · show h.alignment_mask < CAP
          omega
        · intro c hc
          rcases List.mem_cons.mp hc with hh | hh
          · subst hh
            show a + newchunkSize h len < CAP
            omega
          · refine hallc c ?_
            rw [hch]
            rcases List.mem_cons.mp hh with hh2 | hh2
            · subst hh2
              exact List.mem_cons_self _ _
            · exact List.mem_cons_of_mem _ hh2
        · show len ≤ a + newchunkSize h len
            - (ptrAlign (a + hdrSize) h.alignment_mask + (h.next_free - h.object_base))
          unfold hdrSize
          omega

/-- Appending bytes that fit in the remaining room preserves
well-formedness. -/
lemma growWrite_WFS (h : Obstack) (bs : List Nat) (hWF : WFS h)
    (hroom : h.next_free + bs.length ≤ h.chunk_limit) : WFS (growWrite h bs) := by
  obtain ⟨hbn, hnl, hab, ⟨c0, rest0, hch, hlim⟩, hlc, hmc, hallc⟩ := hWF
  refine ⟨?_, ?_, ?_, ⟨c0, rest0, hch, hlim⟩, hlc, hmc, hallc⟩
  · show h.object_base ≤ h.next_free + bs.length
    omega
  · exact hroom
  · show headAddr h ≤ h.object_base
    exact hab

/-- Advancing `next_free` within the room (the `obstack_blank_fast`
tail) preserves well-formedness. -/
lemma advance_WFS (h : Obstack) (n : Nat) (hWF : WFS h)
    (hroom : h.next_free + n ≤ h.chunk_limit) :
    WFS { h with next_free := h.next_free + n } := by
  obtain ⟨hbn, hnl, hab, ⟨c0, rest0, hch, hlim⟩, hlc, hmc, hallc⟩ := hWF
  refine ⟨?_, hroom, hab, ⟨c0, rest0, hch, hlim⟩, hlc, hmc, hallc⟩
  show h.object_base ≤ h.next_free + n
  omega

/-- The `headAddr` only looks at the chunk list. -/
lemma headAddr_growWrite (h : Obstack) (bs : List Nat) :
    headAddr (growWrite h bs) = headAddr h := rfl

/-- The `obstack_finish` preserves well-formedness of the resting state. -/
lemma finish_WFS (h : Obstack) (hWF : WFS h) : WFS (obstack_finish h).1 := by
  obtain ⟨hbn, hnl, hab, ⟨c0, rest0, hch, hlim⟩, hlc, hmc, hallc⟩ := hWF
  have hge : h.next_free ≤ ptrAlign h.next_free h.alignment_mask :=
    ptrAlign_ge _ _
  simp only [obstack_finish]
  by_cases hcl : h.chunk_limit - headAddr h
      < ptrAlign h.next_free h.alignment_mask - headAddr h
  · rw [if_pos hcl]
    refine ⟨Nat.le_refl _, Nat.le_refl _, ?_, ⟨c0, rest0, hch, hlim⟩, hlc, hmc, hallc⟩
    show headAddr h ≤ h.chunk_limit
    omega
  · rw [if_neg hcl]
    have hle : ptrAlign h.next_free h.alignment_mask ≤ h.chunk_limit := by
      have h1 : headAddr h ≤ h.next_free := by omega
      omega
    refine ⟨Nat.le_refl _, hle, ?_, ⟨c0, rest0, hch, hlim⟩, hlc, hmc, hallc⟩
    show headAddr h ≤ ptrAlign h.next_free h.alignment_mask
    omega

/-- Preservation for the common shape of the growth macros: room check,
possible migration, then append. -/
lemma grow_shape_preserves (h : Obstack) (need : Nat) (bs : List Nat)
    (alloc : Nat → Option Nat) (hWF : WFS h) (hneed : need < CAP)
    (hA : AllocOK alloc) (hbs : bs.length ≤ need) (r : OpResult)
    (hr : r = if h.chunk_limit - h.next_free < need then
            (if (_obstack_newchunk h need alloc).failed = true then
              _obstack_newchunk h need alloc
             else { _obstack_newchunk h need alloc with
                    h := growWrite (_obstack_newchunk h need alloc).h bs })
          else { h := growWrite h bs, failed := false,
                 allocCalls := [], freed := [] }) :
    r.failed = true ∨ WFS r.h := by
  subst hr
  by_cases hroom : h.chunk_limit - h.next_free < need
  · rw [if_pos hroom]
    rcases newchunk_preserves h need alloc hWF hneed hA with ⟨hf, _⟩ | ⟨hf, hwf2, hrm⟩
    · rw [if_pos hf]
      exact Or.inl hf
    · rw [if_neg (by rw [hf]; simp)]
      right
      show WFS (growWrite (_obstack_newchunk h need alloc).h bs)
      apply growWrite_WFS _ _ hwf2
      obtain ⟨_, hn2, _⟩ := hwf2
      omega
  · rw [if_neg hroom]
    right
    show WFS (growWrite h bs)
    have hnl : h.next_free ≤ h.chunk_limit := hWF.2.1
    apply growWrite_WFS _ _ hWF
    omega

/-- Every public operation either fails to return (handler or abort) or
yields a well-formed resting state. -/
lemma runOp_preserves (h : Obstack) (o : Op) (alloc : Nat → Option Nat)
    (hWF : WFS h) (hok : OpOK o) (hA : AllocOK alloc) :
    (runOp h o alloc).failed = true ∨ WFS (runOp h o alloc).h := by
  cases o with
  | make_room n =>
      have hn : n < CAP := hok
      show (obstack_make_room h n alloc).failed = true
        ∨ WFS (obstack_make_room h n alloc).h
      unfold obstack_make_room
      by_cases hroom : h.chunk_limit - h.next_free < n
      · rw [if_pos hroom]
        rcases newchunk_preserves h n alloc hWF hn hA with ⟨hf, _⟩ | ⟨hf, hwf2, _⟩
        · exact Or.inl hf
        · exact Or.inr hwf2
      · rw [if_neg hroom]
        exact Or.inr hWF
  | blank n =>
      have hn : n < CAP := hok
      show (obstack_blank h n alloc).failed = true
        ∨ WFS (obstack_blank h n alloc).h
      unfold obstack_blank
      by_cases hroom : h.chunk_limit - h.next_free < n
      · rw [if_pos hroom]
        rcases newchunk_preserves h n alloc hWF hn hA with ⟨hf, _⟩ | ⟨hf, hwf2, hrm⟩
        · rw [if_pos hf]
          exact Or.inl hf
        · rw [if_neg (by rw [hf]; simp)]
          right
          show WFS { (_obstack_newchunk h n alloc).h with
            next_free := (_obstack_newchunk h n alloc).h.next_free + n }
          apply advance_WFS _ _ hwf2
          obtain ⟨_, hn2, _⟩ := hwf2
          omega
      · rw [if_neg hroom]
        right
        show WFS { h with next_free := h.next_free + n }
        have hnl : h.next_free ≤ h.chunk_limit := hWF.2.1
        apply advance_WFS _ _ hWF
        omega
  | grow1 b =>
      exact grow_shape_preserves h 1 [b] alloc hWF hok hA (by simp) _ rfl
  | ptr_grow v =>
      exact grow_shape_preserves h 8 (natLE 8 v) alloc hWF hok hA
        (by simp [natLE]) _ rfl
  | int_grow v =>
      exact grow_shape_preserves h 4 (natLE 4 v) alloc hWF hok hA
        (by simp [natLE]) _ rfl
  | grow src =>
      exact grow_shape_preserves h src.length src alloc hWF hok hA
        (Nat.le_refl _) _ rfl
  | grow0 src =>
      exact grow_shape_preserves h (src.length + 1) (src ++ [0]) alloc hWF hok hA
        (by simp) _ rfl
  | finish =>
      exact Or.inr (finish_WFS h hWF)
  | free p =>
      by_cases hp : (p == 0) = true
      · left
        show ((obstack_free h p).aborted || (p == 0)) = true
        rw [hp]
        simp
      · show ((obstack_free h p).aborted || (p == 0)) = true
          ∨ WFS (obstack_free h p).h
        unfold obstack_free
        by_cases hfast : headAddr h < p ∧ p < h.chunk_limit
        · rw [if_pos hfast]
          right
          obtain ⟨hbn, hnl, hab, ⟨c0, rest0, hch, hlim⟩, hlc, hmc, hallc⟩ := hWF
          refine ⟨Nat.le_refl _, ?_, ?_, ⟨c0, rest0, hch, hlim⟩, hlc, hmc, hallc⟩
          · show p ≤ h.chunk_limit
            omega
          · show headAddr h ≤ p
            omega
        · rw [if_neg hfast]
          unfold _obstack_free
          cases hfl : (freeLoop p h.chunks).2 with
          | nil =>
              left
              show ((p != 0) || (p == 0)) = true
              cases hpz : (p == 0)
              · simp [bne, hpz]
              · simp [bne, hpz]
          | cons lp t =>
              right
              obtain ⟨hcontain, hmem⟩ := freeLoop_rest_spec p h.chunks lp t hfl
              obtain ⟨hbn, hnl, hab, ⟨c0, rest0, hch, hlim⟩, hlc, hmc, hallc⟩ := hWF
              refine ⟨Nat.le_refl _, ?_, ?_, ⟨lp, t, rfl, rfl⟩, ?_, hmc, ?_⟩
              · show p ≤ lp.limit
                omega
              · show lp.addr ≤ p
                omega
              · show lp.limit < CAP
                exact hallc lp (hmem lp (List.mem_cons_self _ _))
              · intro c hc
                exact hallc c (hmem c hc)

/-- A step that returns preserves well-formedness. -/
lemma step_preserves (h : Obstack) (o : Op) (alloc : Nat → Option Nat)
    (h2 : Obstack) (hWF : WFS h) (hok : OpOK o) (hA : AllocOK alloc)
    (hs : step h o alloc = some h2) : WFS h2 := by
  unfold step at hs
  rcases runOp_preserves h o alloc hWF hok hA with hf | hwf2
  · rw [if_pos hf] at hs
    cases hs
  · by_cases hf : (runOp h o alloc).failed = true
    · rw [if_pos hf] at hs
      cases hs
    · rw [if_neg hf] at hs
      cases hs
      exact hwf2

/-- Executing any sequence of bounded operations from a well-formed
state ends (when it returns at all) in a well-formed state. -/
lemma execTrace_WFS :
    ∀ (tr : List (Op × (Nat → Option Nat))) (h hfin : Obstack), WFS h →
      (∀ s ∈ tr, OpOK s.1 ∧ AllocOK s.2) →
      execTrace h tr = some hfin → WFS hfin
  | [], h, hfin, hWF, _, hex => by
      cases hex
      exact hWF
  | s :: t, h, hfin, hWF, hops, hex => by
      unfold execTrace at hex
      cases hstep : step h s.1 s.2 with
      | none => rw [hstep] at hex; cases hex
      | some h2 =>
          rw [hstep] at hex
          have hok := hops s (List.mem_cons_self _ _)
          have hwf2 := step_preserves h s.1 s.2 h2 hWF hok.1 hok.2 hstep
          exact execTrace_WFS t h2 hfin hwf2
            (fun x hx => hops x (List.mem_cons_of_mem _ hx)) hex

/-- A successful `_obstack_begin` with explicit size and alignment
yields a well-formed resting state, provided the first chunk has room
for its header and the alignment padding. -/
lemma begin_WFS (size alignment : Nat) (m0 : Nat → Nat)
    (alloc : Nat → Option Nat) (h0 : Obstack)
    (hs : 0 < size) (ha : 0 < alignment)
    (hfit : hdrSize + (alignment - 1) ≤ size) (hA : AllocOK alloc)
    (hb : _obstack_begin size alignment m0 alloc = some h0) : WFS h0 := by
  unfold _obstack_begin at hb
  rw [if_neg (by omega : ¬ alignment = 0), if_neg (by omega : ¬ size = 0)] at hb
  dsimp only at hb
  cases halloc : alloc size with
  | none => rw [halloc] at hb; cases hb
  | some a =>
      rw [halloc] at hb
      cases hb
      have hacap2 : a + size < CAP := hA _ _ halloc
      have hge : a + hdrSize ≤ ptrAlign (a + hdrSize) (alignment - 1) :=
        ptrAlign_ge _ _
      have hle : ptrAlign (a + hdrSize) (alignment - 1)
          ≤ a + hdrSize + (alignment - 1) := ptrAlign_le _ _
      unfold hdrSize at hfit hge hle
      refine ⟨Nat.le_refl _, ?_, ?_, ⟨⟨a, a + size⟩, [], rfl, rfl⟩, ?_, ?_, ?_⟩
      · show ptrAlign (a + 16) (alignment - 1) ≤ a + size
        omega
      · show a ≤ ptrAlign (a + 16) (alignment - 1)
        omega
      · show a + size < CAP
        omega
      · show alignment - 1 < CAP
        omega
      · intro c hc
        rcases List.mem_singleton.mp hc with hh
        subst hh
        show a + size < CAP
        omega

/-- C10: for every initialized stack, `grow (stack, src, 0)`,
`blank (stack, 0)` and `make_room (stack, 0)` leave every field of the
stack unchanged and never invoke the backing allocator (nor the free
function, nor the handler), even when the remaining room is 0: the room
check `room < 0` on the unsigned length is never true. -/
theorem C10_zero_growth_is_noop (h : Obstack) (alloc : Nat → Option Nat) :
    obstack_grow h [] alloc
      = { h := h, failed := false, allocCalls := [], freed := [] } ∧
    obstack_blank h 0 alloc
      = { h := h, failed := false, allocCalls := [], freed := [] } ∧
    obstack_make_room h 0 alloc
      = { h := h, failed := false, allocCalls := [], freed := [] } := by
  have hgw : growWrite h [] = h := by
    unfold growWrite
    rw [storeBytes_nil]
    rfl
  refine ⟨?_, ?_, ?_⟩
  · unfold obstack_grow
    rw [if_neg (by simp)]
    rw [hgw]
  · unfold obstack_blank
    rw [if_neg (by simp)]
    rfl
  · unfold obstack_make_room
    rw [if_neg (by simp)]

/-- C8: calling `_obstack_free (stack, p)` with a non-null pointer `p`
that lies in no chunk of the stack makes the walk exhaust the chunk
list and call `abort ()` rather than returning or recovering. -/
theorem C8_foreign_free_aborts (h : Obstack) (p : Nat) (hnz : p ≠ 0)
    (hout : ∀ c ∈ h.chunks, p ≤ c.addr ∨ c.limit < p) :
    (_obstack_free h p).aborted = true := by
  have hfl := freeLoop_all p h.chunks hout
  unfold _obstack_free
  rw [hfl]
  show (p != 0) = true
  simpa using hnz

/-- Witness for C8 at a concrete stack and pointer. -/
theorem C8_witness : (_obstack_free hFix 5000).aborted = true :=
  C8_foreign_free_aborts hFix 5000 (by decide) (by decide)

/-- C5 as stated is false: at a chunk `[100, 200)`-with-limit-200, the
pointer 200 (equal to the limit) is treated as inside — the walk stops,
nothing is released, the chunk stays in the chain, and `allocated_p`
reports it as allocated. -/
theorem C5_counterexample :
    (_obstack_free hC5 200).freed = [] ∧
    (_obstack_free hC5 200).h.chunks = [⟨100, 200⟩] ∧
    (_obstack_free hC5 200).aborted = false ∧
    _obstack_allocated_p hC5 200 = true :=
  ⟨rfl, rfl, rfl, rfl⟩

/-- C5, amended: a pointer equal to a chunk's `limit` (with the chunk
address below it) is classified as *inside* that chunk: the bulk-free
walk stops there, releases nothing, retains the chunk, rewinds the
cursor to the pointer, and `_obstack_allocated_p` returns true. -/
theorem C5_limit_is_inside (h : Obstack) (c : Chunk) (rest : List Chunk)
    (hch : h.chunks = c :: rest) (hlt : c.addr < c.limit) :
    (_obstack_free h c.limit).aborted = false ∧
    (_obstack_free h c.limit).freed = [] ∧
    (_obstack_free h c.limit).h.chunks = c :: rest ∧
    (_obstack_free h c.limit).h.object_base = c.limit ∧
    (_obstack_free h c.limit).h.next_free = c.limit ∧
    (_obstack_free h c.limit).h.chunk_limit = c.limit ∧
    _obstack_allocated_p h c.limit = true := by
  have hfl : freeLoop c.limit h.chunks = ([], c :: rest) := by
    rw [hch]
    unfold freeLoop
    rw [if_neg (by omega)]
  have hal : allocLoop c.limit h.chunks = true := by
    rw [hch]
    unfold allocLoop
    rw [if_neg (by omega)]
  unfold _obstack_free _obstack_allocated_p
  rw [hfl, hal]
  exact ⟨rfl, rfl, rfl, rfl, rfl, rfl, rfl⟩

/-- Witness for the amended C5 at the concrete stack `hC5`. -/
theorem C5_witness :
    (_obstack_free hC5 200).aborted = false ∧
    (_obstack_free hC5 200).freed = [] ∧
    (_obstack_free hC5 200).h.chunks = [⟨100, 200⟩] ∧
    (_obstack_free hC5 200).h.object_base = 200 ∧
    (_obstack_free hC5 200).h.next_free = 200 ∧
    (_obstack_free hC5 200).h.chunk_limit = 200 ∧
    _obstack_allocated_p hC5 200 = true :=
  C5_limit_is_inside hC5 ⟨100, 200⟩ [] rfl (by decide)

/-- C6: when the backing allocator returns null during chunk migration,
the failure handler is invoked before any field of the stack is
modified: the state at the moment of invocation is exactly the
pre-migration state, so the resting ordering invariant still holds
there. -/
theorem C6_failure_leaves_state (h : Obstack) (len : Nat)
    (alloc : Nat → Option Nat)
    (hnull : alloc (newchunkSize h len) = none) :
    (_obstack_newchunk h len alloc).failed = true ∧
    (_obstack_newchunk h len alloc).h = h ∧
    ((h.object_base ≤ h.next_free ∧ h.next_free ≤ h.chunk_limit) →
      ((_obstack_newchunk h len alloc).h.object_base
          ≤ (_obstack_newchunk h len alloc).h.next_free ∧
        (_obstack_newchunk h len alloc).h.next_free
          ≤ (_obstack_newchunk h len alloc).h.chunk_limit)) := by
  have hnone : (if nc_guard h len then alloc (newchunkSize h len) else none)
      = none := by
    by_cases hg : nc_guard h len
    · rw [if_pos hg]
      exact hnull
    · rw [if_neg hg]
  rw [newchunk_none_eq h len alloc hnone]
  exact ⟨rfl, rfl, fun hinv => hinv⟩

/-- Witness for C6 at a concrete stack with an always-failing
allocator. -/
theorem C6_witness :
    (_obstack_newchunk hFix 5 (fun _ => none)).failed = true ∧
    (_obstack_newchunk hFix 5 (fun _ => none)).h = hFix ∧
    ((hFix.object_base ≤ hFix.next_free ∧ hFix.next_free ≤ hFix.chunk_limit) →
      ((_obstack_newchunk hFix 5 (fun _ => none)).h.object_base
          ≤ (_obstack_newchunk hFix 5 (fun _ => none)).h.next_free ∧
        (_obstack_newchunk hFix 5 (fun _ => none)).h.next_free
          ≤ (_obstack_newchunk hFix 5 (fun _ => none)).h.chunk_limit)) :=
  C6_failure_leaves_state hFix 5 (fun _ => none) rfl

/-- C9: the printf helpers pass the full formatter-reported length to
`obstack_grow`, so a 2000-byte output makes `obstack_grow` copy 2000
bytes out of the 1024-byte scratch buffer — an out-of-bounds read
(modelled as `none`) instead of appending the truncated contents. -/
theorem C9_printf_overread_bug :
    obstack_vprintf hFix (List.replicate 2000 65) (fun _ => some 4096) = none ∧
    obstack_printf hFix (List.replicate 2000 65) (fun _ => some 4096) = none := by
  have hkey : ¬ ((List.replicate 2000 (65 : Nat)).length
      ≤ (vsnprintfBuf (List.replicate 2000 65)).length) := by
    unfold vsnprintfBuf
    rw [List.length_append, List.length_take, List.length_replicate]
    simp only [List.length_singleton]
    omega
  constructor
  · unfold obstack_vprintf
    rw [if_neg hkey]
  · unfold obstack_printf obstack_vprintf
    rw [if_neg hkey]

/-- C4 as stated is false: when only the *third* addition of the
chunk-size computation overflows (here `sum2 + obj_size/8 + 100` with
`sum2 = 2^64 - 93`), the code clamps `new_size` back to `sum2` and
proceeds to call the allocator; with a succeeding allocator no failure
handler is invoked. -/
theorem C4_counterexample :
    nc_sum2 hC4 (W - 100) + (hC4.next_free - hC4.object_base) / 8 + 100 ≥ W ∧
    (_obstack_newchunk hC4 (W - 100) (fun _ => some 4096)).failed = false ∧
    (_obstack_newchunk hC4 (W - 100) (fun _ => some 4096)).allocCalls
      = [W - 93] := by
  refine ⟨by decide, rfl, rfl⟩

/-- C4, amended: overflow of either of the *first two* additions
(`obj_size + length` and `sum1 + alignment_mask`) is detected by the
guard and treated as an allocation failure with the allocator never
called; overflow of the third addition (`sum2 + obj_size/8 + 100`) is
detected but only clamps the requested size back to `sum2`, after which
allocation proceeds and fails only if the allocator itself fails. -/
theorem C4_overflow_handling (h : Obstack) (len : Nat)
    (alloc : Nat → Option Nat)
    (h1 : h.next_free - h.object_base < W) (h2 : len < W)
    (h3 : h.alignment_mask < W) :
    (((h.next_free - h.object_base) + len ≥ W
        ∨ nc_sum1 h len + h.alignment_mask ≥ W) →
      (_obstack_newchunk h len alloc).failed = true ∧
      (_obstack_newchunk h len alloc).h = h ∧
      (_obstack_newchunk h len alloc).allocCalls = []) ∧
    ((h.next_free - h.object_base) + len < W →
      nc_sum1 h len + h.alignment_mask < W →
      nc_sum2 h len + (h.next_free - h.object_base) / 8 + 100 ≥ W →
      newchunkSize h len
        = (if nc_sum2 h len < h.chunk_size then h.chunk_size
           else nc_sum2 h len) ∧
      (_obstack_newchunk h len alloc).failed
        = (alloc (newchunkSize h len)).isNone) := by
  constructor
  · intro hov
    have hg : ¬ nc_guard h len := by
      unfold nc_guard
      unfold nc_sum2
      unfold nc_sum1 at hov ⊢
      unfold W at h1 h2 h3 hov ⊢
      omega
    rw [newchunk_none_eq h len alloc (by rw [if_neg hg])]
    exact ⟨rfl, rfl, if_neg hg⟩
  · intro hn1 hn2 hov3
    have hs1 : nc_sum1 h len = (h.next_free - h.object_base) + len := by
      unfold nc_sum1
      exact Nat.mod_eq_of_lt hn1
    have hs2v : nc_sum2 h len = nc_sum1 h len + h.alignment_mask := by
      unfold nc_sum2
      exact Nat.mod_eq_of_lt hn2
    have hdivW : (h.next_free - h.object_base) / 8 + 100 < W := by
      have hd := Nat.div_le_self (h.next_free - h.object_base) 8
      unfold W at h1 ⊢
      omega
    have hs2W : nc_sum2 h len < W := by
      rw [hs2v]
      exact hn2
    have hs0 : nc_size0 h len
        = nc_sum2 h len + (h.next_free - h.object_base) / 8 + 100 - W := by
      unfold nc_size0
      unfold W at hov3 hdivW hs2W ⊢
      omega
    have hclamp : nc_size0 h len < nc_sum2 h len := by
      rw [hs0]
      omega
    have hnsz : newchunkSize h len
        = (if nc_sum2 h len < h.chunk_size then h.chunk_size
           else nc_sum2 h len) := by
      simp only [newchunkSize]
      rw [if_pos hclamp]
    refine ⟨hnsz, ?_⟩
    have hg : nc_guard h len := by
      constructor
      · rw [hs1]
        omega
      · rw [hs2v]
        omega
    cases halloc : alloc (newchunkSize h len) with
    | none =>
        rw [newchunk_none_eq h len alloc (by rw [if_pos hg]; exact halloc)]
        rfl
    | some a =>
        show (_obstack_newchunk h len alloc).failed = false
        cases hch : h.chunks with
        | nil =>
            unfold _obstack_newchunk
            rw [if_pos hg, halloc, hch]
        | cons old rest =>
            rw [newchunk_some_eq h len alloc a old rest hg halloc hch]
            by_cases hrc : nc_recycle h old
            · rw [if_pos hrc]
            · rw [if_neg hrc]

/-- Witness for the amended C4: a first-sum overflow is a handler
invocation with the state untouched and the allocator never called. -/
theorem C4_witness :
    (_obstack_newchunk hC2 (W - 5) (fun _ => some 4096)).failed = true ∧
    (_obstack_newchunk hC2 (W - 5) (fun _ => some 4096)).h = hC2 ∧
    (_obstack_newchunk hC2 (W - 5) (fun _ => some 4096)).allocCalls = [] :=
  (C4_overflow_handling hC2 (W - 5) (fun _ => some 4096)
    (by decide) (by decide) (by decide)).1 (Or.inl (by decide))

/-- C2: during migration (with a successful allocation), the backing
free function is called on the old chunk and the old chunk is unlinked
(`new.prev = old.prev`, i.e. the new chunk's tail is `rest`) exactly
when `maybe_empty_object` is false and the relocated object's base
equals the aligned start of the old chunk's contents; otherwise the old
chunk is retained in the chain. -/
theorem C2_old_chunk_recycling (h : Obstack) (len : Nat)
    (alloc : Nat → Option Nat) (old : Chunk) (rest : List Chunk)
    (hch : h.chunks = old :: rest)
    (hok : (_obstack_newchunk h len alloc).failed = false) :
    ∃ a, alloc (newchunkSize h len) = some a ∧
      (if nc_recycle h old then
        (_obstack_newchunk h len alloc).freed = [old.addr] ∧
        (_obstack_newchunk h len alloc).h.chunks
          = ⟨a, a + newchunkSize h len⟩ :: rest
      else
        (_obstack_newchunk h len alloc).freed = [] ∧
        (_obstack_newchunk h len alloc).h.chunks
          = ⟨a, a + newchunkSize h len⟩ :: old :: rest) := by
  by_cases hg : nc_guard h len
  · cases halloc : alloc (newchunkSize h len) with
    | none =>
        exfalso
        rw [newchunk_none_eq h len alloc (by rw [if_pos hg]; exact halloc)]
          at hok
        simp at hok
    | some a =>
        refine ⟨a, rfl, ?_⟩
        rw [newchunk_some_eq h len alloc a old rest hg halloc hch]
        by_cases hrc : nc_recycle h old
        · rw [if_pos hrc, if_pos hrc]
          exact ⟨rfl, rfl⟩
        · rw [if_neg hrc, if_neg hrc]
          exact ⟨rfl, rfl⟩
  · exfalso
    rw [newchunk_none_eq h len alloc (by rw [if_neg hg])] at hok
    simp at hok

/-- Witness for C2: at `hC2` the old chunk is the relocated object's
only content and `maybe_empty_object` is clear, so the old chunk at 64
is freed and unlinked. -/
theorem C2_witness :
    ∃ a, (fun _ : Nat => some (256 : Nat)) (newchunkSize hC2 20) = some a ∧
      (if nc_recycle hC2 ⟨64, 94⟩ then
        (_obstack_newchunk hC2 20 (fun _ => some 256)).freed = [(64 : Nat)] ∧
        (_obstack_newchunk hC2 20 (fun _ => some 256)).h.chunks
          = ⟨a, a + newchunkSize hC2 20⟩ :: []
      else
        (_obstack_newchunk hC2 20 (fun _ => some 256)).freed = [] ∧
        (_obstack_newchunk hC2 20 (fun _ => some 256)).h.chunks
          = ⟨a, a + newchunkSize hC2 20⟩ :: ⟨64, 94⟩ :: []) :=
  C2_old_chunk_recycling hC2 20 (fun _ => some 256) ⟨64, 94⟩ [] rfl (by decide)

/-- C1: freeing a pointer contained in some chunk (as every address
previously returned by `finish` and not yet freed is) rewinds
`object_base` and `next_free` to it, makes the containing chunk current
with `chunk_limit` its limit, releases exactly the chunks newer than
the containing one, and leaves memory — in particular every byte of
every object finalized below the pointer — untouched. -/
theorem C1_bulk_free_correct (h : Obstack) (p : Nat) (c0 : Chunk)
    (rest : List Chunk) (hch : h.chunks = c0 :: rest)
    (hlim : h.chunk_limit = c0.limit)
    (hcont : ∃ c ∈ h.chunks, containsB c p = true) :
    (obstack_free h p).aborted = false ∧
    (obstack_free h p).h.object_base = p ∧
    (obstack_free h p).h.next_free = p ∧
    (obstack_free h p).h.chunks
      = h.chunks.dropWhile (fun c => !containsB c p) ∧
    (∃ c t, (obstack_free h p).h.chunks = c :: t ∧ containsB c p = true ∧
        (obstack_free h p).h.chunk_limit = c.limit) ∧
    (obstack_free h p).freed
      = (h.chunks.takeWhile (fun c => !containsB c p)).map Chunk.addr ∧
    (obstack_free h p).h.mem = h.mem := by
  have hha : headAddr h = c0.addr := by
    unfold headAddr
    rw [hch]
  unfold obstack_free
  by_cases hfast : headAddr h < p ∧ p < h.chunk_limit
  · rw [if_pos hfast]
    have hc0 : containsB c0 p = true := by
      rw [containsB_true_iff]
      omega
    refine ⟨rfl, rfl, rfl, ?_, ⟨c0, rest, ?_, hc0, hlim⟩, ?_, rfl⟩
    · show h.chunks = h.chunks.dropWhile (fun c => !containsB c p)
      rw [hch]
      simp [List.dropWhile_cons, hc0]
    · show h.chunks = c0 :: rest
      exact hch
    · show ([] : List Nat)
        = (h.chunks.takeWhile (fun c => !containsB c p)).map Chunk.addr
      rw [hch]
      simp [List.takeWhile_cons, hc0]
  · rw [if_neg hfast]
    have hsplit := freeLoop_eq_split p h.chunks hcont
    have hne := dropWhile_ne_nil_of_contains p h.chunks hcont
    unfold _obstack_free
    cases hdw : h.chunks.dropWhile (fun c => !containsB c p) with
    | nil => exact absurd hdw hne
    | cons lp t =>
        have h2 : (freeLoop p h.chunks).2 = lp :: t := by
          rw [hsplit]
          exact hdw
        obtain ⟨hlp, _⟩ := freeLoop_rest_spec p h.chunks lp t h2
        rw [hsplit, hdw]
        refine ⟨rfl, rfl, rfl, rfl, ⟨lp, t, rfl, ?_, rfl⟩, rfl, rfl⟩
        rw [containsB_true_iff]
        exact hlp

/-- Witness for C1: freeing address 1050 in the older chunk of `hFix`
releases the newer chunk at 2000 and rewinds into the chunk at 1000. -/
theorem C1_witness :
    (obstack_free hFix 1050).aborted = false ∧
    (obstack_free hFix 1050).h.object_base = 1050 ∧
    (obstack_free hFix 1050).h.next_free = 1050 ∧
    (obstack_free hFix 1050).h.chunks
      = hFix.chunks.dropWhile (fun c => !containsB c 1050) ∧
    (∃ c t, (obstack_free hFix 1050).h.chunks = c :: t ∧
        containsB c 1050 = true ∧
        (obstack_free hFix 1050).h.chunk_limit = c.limit) ∧
    (obstack_free hFix 1050).freed
      = (hFix.chunks.takeWhile (fun c => !containsB c 1050)).map Chunk.addr ∧
    (obstack_free hFix 1050).h.mem = hFix.mem :=
  C1_bulk_free_correct hFix 1050 ⟨2000, 2100⟩ [⟨1000, 1100⟩] rfl rfl (by decide)

/-- C3 as stated is false: with chunk size 30 and alignment 8, a
10-byte object finished at 80 pads `next_free` to 96, which is clamped
at the chunk limit 94; the following `finish` then returns 94, which is
not a multiple of the configured alignment 8. -/
theorem C3_counterexample :
    ((_obstack_begin 30 8 memZ allocC3).map (fun h0 =>
        ((obstack_finish (obstack_finish
            (obstack_grow h0 (List.replicate 10 7) allocC3).h).1).2,
         h0.alignment_mask)))
      = some (94, 7) ∧
    ¬ ((7 + 1) ∣ 94) := by
  refine ⟨rfl, by decide⟩

/-- C3, amended: `finish` returns the pre-call `object_base`, so the
returned address is a multiple of the configured alignment whenever
`object_base` is itself aligned; moreover the new `object_base` set by
`finish` is aligned whenever the alignment padding is *not* clamped at
`chunk_limit` — only a clamped padding (at a chunk limit that need not
be aligned) can break the alignment of a later `finish`'s return
value. -/
theorem C3_finish_alignment (h : Obstack) (c : Chunk) (rest : List Chunk)
    (hch : h.chunks = c :: rest)
    (hbase : (h.alignment_mask + 1) ∣ h.object_base) :
    (h.alignment_mask + 1) ∣ (obstack_finish h).2 ∧
    (¬ (h.chunk_limit - c.addr
          < ptrAlign h.next_free h.alignment_mask - c.addr) →
      (h.alignment_mask + 1) ∣ (obstack_finish h).1.object_base) := by
  have hha : headAddr h = c.addr := by
    unfold headAddr
    rw [hch]
  constructor
  · exact hbase
  · intro hnc
    simp only [obstack_finish]
    rw [hha, if_neg hnc]
    exact ptrAlign_dvd h.next_free h.alignment_mask

/-- Witness for the amended C3 at the concrete aligned state
`hfinEx`. -/
theorem C3_witness :
    (hfinEx.alignment_mask + 1) ∣ (obstack_finish hfinEx).2 ∧
    (¬ (hfinEx.chunk_limit - (1024 : Nat)
          < ptrAlign hfinEx.next_free hfinEx.alignment_mask - 1024) →
      (hfinEx.alignment_mask + 1) ∣ (obstack_finish hfinEx).1.object_base) :=
  C3_finish_alignment hfinEx ⟨1024, 1088⟩ [] rfl (by decide)

/-- C7: the cursor ordering `object_base ≤ next_free ≤ chunk_limit`
holds after initialization and after every sequence of public
operations (growth in all variants, `make_room`, `finish`, `free`, and
the chunk migration they trigger), i.e. in every reachable resting
state, under the sanity bounds on sizes and on the backing
allocators. -/
theorem C7_ordering_invariant (size alignment : Nat) (m0 : Nat → Nat)
    (alloc0 : Nat → Option Nat) (h0 hfin : Obstack)
    (tr : List (Op × (Nat → Option Nat)))
    (hsz : 0 < size) (hal : 0 < alignment)
    (hfit : hdrSize + (alignment - 1) ≤ size)
    (hA0 : AllocOK alloc0)
    (hbegin : _obstack_begin size alignment m0 alloc0 = some h0)
    (htr : ∀ s ∈ tr, OpOK s.1 ∧ AllocOK s.2)
    (hexec : execTrace h0 tr = some hfin) :
    (h0.object_base ≤ h0.next_free ∧ h0.next_free ≤ h0.chunk_limit) ∧
    (hfin.object_base ≤ hfin.next_free ∧ hfin.next_free ≤ hfin.chunk_limit) := by
  have hwf0 := begin_WFS size alignment m0 alloc0 h0 hsz hal hfit hA0 hbegin
  have hwff := execTrace_WFS tr h0 hfin hwf0 htr hexec
  exact ⟨⟨hwf0.1, hwf0.2.1⟩, ⟨hwff.1, hwff.2.1⟩⟩

/-- The bounded example allocator satisfies its sanity contract. -/
lemma allocW_ok : AllocOK allocW := by
  intro n a hna
  unfold allocW at hna
  split at hna
  · cases hna
    rename_i hn
    unfold CAP
    omega
  · cases hna

/-- Witness for C7: `_obstack_begin 64 8` followed by `blank 4` and
`finish`. -/
theorem C7_witness :
    (h0ex.object_base ≤ h0ex.next_free ∧ h0ex.next_free ≤ h0ex.chunk_limit) ∧
    (hfinEx.object_base ≤ hfinEx.next_free
      ∧ hfinEx.next_free ≤ hfinEx.chunk_limit) :=
  C7_ordering_invariant 64 8 memZ allocW h0ex hfinEx
    [(Op.blank 4, allocW), (Op.finish, allocW)]
    (by decide) (by decide) (by decide) allocW_ok rfl
    (by
      intro s hs
      rcases List.mem_cons.mp hs with hh | hh
      · subst hh
        exact ⟨by show (4 : Nat) < CAP; decide, allocW_ok⟩
      · rcases List.mem_cons.mp hh with hh2 | hh2
        · subst hh2
          exact ⟨by show (0 : Nat) < CAP; decide, allocW_ok⟩
        · cases hh2)
    rfl
